import Mathlib

/-!
# Shallow embedding of the jinja-formatter core (`src/main.rs`)

The program's core is two functions:

* `peek_jinja_stmt_keyword` — the keyword classifier: given a syntax-tree
  node and the source bytes, returns the block keyword of a statement node,
  or nothing.
* `format_jinja_node` — the layout formatter: iterates the direct children
  of the root node, maintaining two `usize` indentation counters
  (`curr_ident`, `next_ident`), and re-emits each child's raw text with
  `curr_ident * INDENT_SIZE` leading spaces after a line break, joining
  consecutive expression-kind nodes on one line.

Modelling choices:

* A CST node is modelled by its `kind` tag, its ordered children, and the
  result of `utf8_text` on it (`some` text, or `none` for a decode error).
* Rust `usize` arithmetic is modelled by `Nat` with an explicit checked
  decrement `usizeDec`: `curr_ident -= 1` at value `0` is an arithmetic
  underflow, a panic in debug builds, modelled as `none` (abort).
* All Rust panics (`unwrap` on a text decode error, the `panic!` on an
  unknown keyword, integer underflow, and the out-of-bounds slice
  `formatted[1..]` on an empty buffer) are modelled as `none`; the
  formatter therefore returns `Option String`.
* The output buffer is carried as a `List Char` and converted to `String`
  at the end; Rust's byte slice `formatted[1..]` is modelled as dropping
  the first character, which agrees with the byte slice because the first
  character pushed into a non-empty buffer is always the one-byte `'\n'`.
-/

/-- A concrete-syntax-tree node as consumed by the core: its `kind` tag,
its ordered children, and the result of `utf8_text(source)` on it
(`none` models a decode failure `Err`). -/
inductive Node where
  | mk (kind : String) (children : List Node) (text : Option String)

/-- The node's grammar-production tag (`node.kind()`). -/
def Node.kind : Node → String
  | .mk k _ _ => k

/-- The node's ordered children (`node.child(i)` by index). -/
def Node.children : Node → List Node
  | .mk _ c _ => c

/-- The result of `node.utf8_text(source)`: `some` exact source slice, or
`none` on a decode failure. -/
def Node.text : Node → Option String
  | .mk _ _ t => t

/-- `const INDENT_SIZE: usize = 2;` -/
def INDENT_SIZE : Nat := 2

/-- The inner `match text { ... }` of `peek_jinja_stmt_keyword`: `some`
for the twelve recognized block keywords, `none` otherwise. -/
def keywordMatch (t : String) : Option String :=
  match t with
  | "if" | "elif" | "else" | "endif" | "for" | "endfor" | "macro" | "endmacro"
  | "call" | "endcall" | "filter" | "endfilter" => some t
  | _ => none

/-- `fn peek_jinja_stmt_keyword(node, source) -> Option<String>`: returns
`none` unless the node's kind is `"statement"`; otherwise inspects the
second child (index 1) and matches its decoded text against the fixed
keyword set. A missing second child or a decode failure falls through to
the final `None`. -/
def peek_jinja_stmt_keyword (node : Node) : Option String :=
  if node.kind ≠ "statement" then
    none
  else
    match node.children.get? 1 with
    | some keyword_node =>
      match keyword_node.text with
      | some t => keywordMatch t
      | none => none
    | none => none

/-- The opener arm's pattern `"if" | "for" | "macro" | "call" | "filter"`. -/
def isOpenerKw (k : String) : Bool :=
  k = "if" || k = "for" || k = "macro" || k = "call" || k = "filter"

/-- The mid-block arm's pattern `"elif" | "else"`. -/
def isMidKw (k : String) : Bool :=
  k = "elif" || k = "else"

/-- The closer arm's pattern
`"endif" | "endfor" | "endmacro" | "endcall" | "endfilter"`. -/
def isCloserKw (k : String) : Bool :=
  k = "endif" || k = "endfor" || k = "endmacro" || k = "endcall" || k = "endfilter"

/-- Checked `usize` decrement: `n -= 1` underflows (debug-build panic) at
`0`, modelled as `none`. -/
def usizeDec (n : Nat) : Option Nat :=
  if n = 0 then none else some (n - 1)

/-- The `match keyword.as_str() { ... }` block of the formatter loop,
acting on `(curr_ident, next_ident)`; the catch-all arm is
`panic!("unknown keyword")`, modelled as `none`. -/
def adjustIdent (kw : Option String) (curr next : Nat) : Option (Nat × Nat) :=
  match kw with
  | none => some (curr, next)
  | some k =>
    if isOpenerKw k then
      some (curr, next + 1)
    else if isMidKw k then
      (usizeDec curr).map (fun c => (c, next))
    else if isCloserKw k then
      (usizeDec curr).bind (fun c => (usizeDec next).map (fun n => (c, n)))
    else
      none

/-- The loop state of `format_jinja_node`:
`(curr_ident, next_ident, last_node_kind, formatted)`. -/
abbrev FmtState := Nat × Nat × List Char × List Char

/-- `last_node_kind` is a `&str` in the source; we carry it as chars for
uniformity with the buffer. -/
def strChars (s : String) : List Char := s.data

/-- One iteration of the `for i in 0..root_node.child_count()` loop body:
classify the node, adjust the counters, decide the line break, append the
raw text (`unwrap` on a decode failure is `none`), and finally execute
`curr_ident = next_ident`. -/
def stepFmt (st : FmtState) (node : Node) : Option FmtState :=
  let (curr, next, lastKind, buf) := st
  match adjustIdent (peek_jinja_stmt_keyword node) curr next with
  | none => none
  | some (c, n) =>
    let buf1 :=
      if node.kind ≠ "expression" ∨ lastKind ≠ strChars "expression" then
        buf ++ '\n' :: List.replicate (c * INDENT_SIZE) ' '
      else
        buf
    match node.text with
    | none => none
    | some t => some (n, n, strChars node.kind, buf1 ++ t.data)

/-- The whole child loop of `format_jinja_node`, from a given state. -/
def runLoop (st : FmtState) : List Node → Option FmtState
  | [] => some st
  | node :: rest =>
    match stepFmt st node with
    | none => none
    | some st' => runLoop st' rest

/-- `fn format_jinja_node(root_node, source) -> String`: run the child
loop from `curr_ident = 0`, `next_ident = 0`, `last_node_kind = ""`,
empty buffer, then return `formatted[1..].to_string() + "\n"`. The slice
`formatted[1..]` panics (out of bounds) on an empty buffer, modelled as
`none`. -/
def format_jinja_node (root : Node) : Option String :=
  match runLoop (0, 0, [], []) root.children with
  | none => none
  | some (_, _, _, buf) =>
    if buf = [] then none
    else some (String.mk (buf.drop 1 ++ ['\n']))

/-- A statement node as the grammar shapes it: the leading `{%` token
first, the keyword token second (index 1), and the raw statement text. -/
def stmtNode (kw raw : String) : Node :=
  .mk "statement" [.mk "\x7b%" [] (some "\x7b%"), .mk "keyword" [] (some kw)] (some raw)

/-- A plain text node. -/
def textNode (raw : String) : Node :=
  .mk "text" [] (some raw)

/-- An expression node (`{{ ... }}`). -/
def exprNode (raw : String) : Node :=
  .mk "expression" [] (some raw)

/-- The twelve recognized block keywords, in the order of the
classifier's match arms. -/
def blockKeywords : List String :=
  ["if", "elif", "else", "endif", "for", "endfor", "macro", "endmacro",
   "call", "endcall", "filter", "endfilter"]

/-- The node is classified as an opener by the formatter loop. -/
def classifiesOpener (n : Node) : Bool :=
  match peek_jinja_stmt_keyword n with
  | some k => isOpenerKw k
  | none => false

/-- The node is classified as a mid-block marker by the formatter loop. -/
def classifiesMid (n : Node) : Bool :=
  match peek_jinja_stmt_keyword n with
  | some k => isMidKw k
  | none => false

/-- The node is classified as a closer by the formatter loop. -/
def classifiesCloser (n : Node) : Bool :=
  match peek_jinja_stmt_keyword n with
  | some k => isCloserKw k
  | none => false

/-- The node's classification decrements `curr_ident` when processed. -/
def decrementsIdent (n : Node) : Bool :=
  classifiesMid n || classifiesCloser n

/-- Number of opener-classified nodes in a sibling list. -/
def openerCount (l : List Node) : Nat :=
  l.countP classifiesOpener

/-- Number of closer-classified nodes in a sibling list. -/
def closerCount (l : List Node) : Nat :=
  l.countP classifiesCloser

/-- Leading-space count of every line of a formatter output (the final
segment after the trailing newline is dropped). -/
def lineIndents (s : String) : List Nat :=
  ((s.data.splitOn '\n').dropLast).map (fun l => (l.takeWhile (fun ch => ch = ' ')).length)

/-- Concatenation of the raw texts of a run of nodes, with nothing
inserted between them. -/
def concatTexts (l : List Node) : List Char :=
  l.foldr (fun n acc => (n.text.getD "").data ++ acc) []

example : peek_jinja_stmt_keyword (stmtNode "if" "{% if x %}") = some "if" := by decide
example : peek_jinja_stmt_keyword (stmtNode "set" "{% set x = 1 %}") = none := by decide
example : peek_jinja_stmt_keyword (textNode "hello") = none := by decide

example :
    format_jinja_node (.mk "root"
      [stmtNode "if" "{% if x %}", textNode "hello", stmtNode "endif" "{% endif %}"] none) =
      some "{% if x %}\n  hello\n{% endif %}\n" := by decide

/-! ## Basic lemmas about the classifier -/

theorem peek_eq_some_kind {node : Node} {k : String}
    (h : peek_jinja_stmt_keyword node = some k) : node.kind = "statement" := by
  by_contra hne
  simp [peek_jinja_stmt_keyword, hne] at h

theorem keywordMatch_eq_mem (t : String) :
    keywordMatch t = if t ∈ blockKeywords then some t else none := by
  unfold keywordMatch
  split <;> simp_all [blockKeywords]

theorem isMidKw_elim {k : String} (h : isMidKw k = true) :
    k = "elif" ∨ k = "else" := by
  simpa [isMidKw] using h

theorem isOpenerKw_elim {k : String} (h : isOpenerKw k = true) :
    k = "if" ∨ k = "for" ∨ k = "macro" ∨ k = "call" ∨ k = "filter" := by
  simpa [isOpenerKw, or_assoc] using h

theorem isCloserKw_elim {k : String} (h : isCloserKw k = true) :
    k = "endif" ∨ k = "endfor" ∨ k = "endmacro" ∨ k = "endcall" ∨ k = "endfilter" := by
  simpa [isCloserKw, or_assoc] using h

theorem isOpenerKw_not_other {k : String} (h : isOpenerKw k = true) :
    isMidKw k = false ∧ isCloserKw k = false := by
  rcases isOpenerKw_elim h with h | h | h | h | h <;> subst h <;> decide

theorem isMidKw_not_other {k : String} (h : isMidKw k = true) :
    isOpenerKw k = false ∧ isCloserKw k = false := by
  rcases isMidKw_elim h with h | h <;> subst h <;> decide

theorem isCloserKw_not_other {k : String} (h : isCloserKw k = true) :
    isOpenerKw k = false ∧ isMidKw k = false := by
  rcases isCloserKw_elim h with h | h | h | h | h <;> subst h <;> decide

theorem keywordMatch_classified {t k : String} (h : keywordMatch t = some k) :
    k = t ∧ (isOpenerKw t || isMidKw t || isCloserKw t) = true := by
  rw [keywordMatch_eq_mem] at h
  split at h
  · cases h
    constructor
    · rfl
    · rename_i hmem
      simp only [blockKeywords, List.mem_cons, List.not_mem_nil, or_false] at hmem
      rcases hmem with h | h | h | h | h | h | h | h | h | h | h | h <;> subst h <;> decide
  · cases h

/-! ## Step lemmas for the formatter loop -/

theorem stepFmt_peek_none {node : Node} {t : String}
    (hp : peek_jinja_stmt_keyword node = none) (ht : node.text = some t)
    (curr next : Nat) (lk buf : List Char) :
    stepFmt (curr, next, lk, buf) node =
      some (next, next, strChars node.kind,
        (if node.kind ≠ "expression" ∨ lk ≠ strChars "expression" then
           buf ++ '\n' :: List.replicate (curr * INDENT_SIZE) ' '
         else buf) ++ t.data) := by
  simp [stepFmt, adjustIdent, hp, ht]

theorem stepFmt_opener {node : Node} {k t : String}
    (hp : peek_jinja_stmt_keyword node = some k) (hop : isOpenerKw k = true)
    (ht : node.text = some t) (curr next : Nat) (lk buf : List Char) :
    stepFmt (curr, next, lk, buf) node =
      some (next + 1, next + 1, strChars "statement",
        buf ++ '\n' :: (List.replicate (curr * INDENT_SIZE) ' ' ++ t.data)) := by
  have hkind := peek_eq_some_kind hp
  simp [stepFmt, adjustIdent, hp, hop, ht, hkind, strChars]

theorem stepFmt_mid {node : Node} {k t : String}
    (hp : peek_jinja_stmt_keyword node = some k) (hm : isMidKw k = true)
    (ht : node.text = some t) (curr next : Nat) (lk buf : List Char) :
    stepFmt (curr + 1, next, lk, buf) node =
      some (next, next, strChars "statement",
        buf ++ '\n' :: (List.replicate (curr * INDENT_SIZE) ' ' ++ t.data)) ∧
    stepFmt (0, next, lk, buf) node = none := by
  have hkind := peek_eq_some_kind hp
  have hno := isMidKw_not_other hm
  constructor
  · simp [stepFmt, adjustIdent, hp, hm, hno.1, ht, hkind, usizeDec, strChars]
  · simp [stepFmt, adjustIdent, hp, hm, hno.1, usizeDec]

theorem stepFmt_closer {node : Node} {k t : String}
    (hp : peek_jinja_stmt_keyword node = some k) (hc : isCloserKw k = true)
    (ht : node.text = some t) (curr next : Nat) (lk buf : List Char) :
    stepFmt (curr + 1, next + 1, lk, buf) node =
      some (next, next, strChars "statement",
        buf ++ '\n' :: (List.replicate (curr * INDENT_SIZE) ' ' ++ t.data)) ∧
    stepFmt (0, next, lk, buf) node = none := by
  have hkind := peek_eq_some_kind hp
  have hno := isCloserKw_not_other hc
  constructor
  · simp [stepFmt, adjustIdent, hp, hc, hno.1, hno.2, ht, hkind, usizeDec, strChars]
  · simp [stepFmt, adjustIdent, hp, hc, hno.1, hno.2, usizeDec]

theorem stepFmt_success_cases {c : Nat} {lk buf : List Char} {node : Node} {st' : FmtState}
    (h : stepFmt (c, c, lk, buf) node = some st') :
    (classifiesOpener node = true ∧ ∃ lk' b', st' = (c + 1, c + 1, lk', b')) ∨
    (classifiesMid node = true ∧ 1 ≤ c ∧ ∃ lk' b', st' = (c, c, lk', b')) ∨
    (classifiesCloser node = true ∧ 1 ≤ c ∧ ∃ lk' b', st' = (c - 1, c - 1, lk', b')) ∨
    (classifiesOpener node = false ∧ classifiesMid node = false ∧
      classifiesCloser node = false ∧ ∃ lk' b', st' = (c, c, lk', b')) := by
  cases hp : peek_jinja_stmt_keyword node with
  | none =>
    cases ht : node.text with
    | none => simp [stepFmt, adjustIdent, hp, ht] at h
    | some t =>
      rw [stepFmt_peek_none hp ht] at h
      cases h
      right; right; right
      exact ⟨by simp [classifiesOpener, hp], by simp [classifiesMid, hp],
        by simp [classifiesCloser, hp], _, _, rfl⟩
  | some k =>
    by_cases hop : isOpenerKw k = true
    · cases ht : node.text with
      | none => simp [stepFmt, adjustIdent, hp, hop, ht] at h
      | some t =>
        rw [stepFmt_opener hp hop ht] at h
        cases h
        left
        exact ⟨by simp [classifiesOpener, hp, hop], _, _, rfl⟩
    · simp only [Bool.not_eq_true] at hop
      by_cases hm : isMidKw k = true
      · cases c with
        | zero => simp [stepFmt, adjustIdent, hp, hop, hm, usizeDec] at h
        | succ c' =>
          cases ht : node.text with
          | none => simp [stepFmt, adjustIdent, hp, hop, hm, ht, usizeDec] at h
          | some t =>
            rw [(stepFmt_mid hp hm ht c' (c' + 1) lk buf).1] at h
            cases h
            right; left
            exact ⟨by simp [classifiesMid, hp, hm], Nat.succ_le_succ (Nat.zero_le _), _, _, rfl⟩
      · simp only [Bool.not_eq_true] at hm
        by_cases hc : isCloserKw k = true
        · cases c with
          | zero => simp [stepFmt, adjustIdent, hp, hop, hm, hc, usizeDec] at h
          | succ c' =>
            cases ht : node.text with
            | none => simp [stepFmt, adjustIdent, hp, hop, hm, hc, ht, usizeDec] at h
            | some t =>
              rw [(stepFmt_closer hp hc ht c' c' lk buf).1] at h
              cases h
              right; right; left
              exact ⟨by simp [classifiesCloser, hp, hc], Nat.succ_le_succ (Nat.zero_le _), _, _, rfl⟩
        · simp only [Bool.not_eq_true] at hc
          simp [stepFmt, adjustIdent, hp, hop, hm, hc] at h

theorem classifies_exclusive (n : Node) :
    (classifiesOpener n = true → classifiesMid n = false ∧ classifiesCloser n = false) ∧
    (classifiesMid n = true → classifiesOpener n = false ∧ classifiesCloser n = false) ∧
    (classifiesCloser n = true → classifiesOpener n = false ∧ classifiesMid n = false) := by
  unfold classifiesOpener classifiesMid classifiesCloser
  cases hp : peek_jinja_stmt_keyword n with
  | none => simp
  | some k =>
    exact ⟨fun h => isOpenerKw_not_other h, fun h => isMidKw_not_other h,
      fun h => isCloserKw_not_other h⟩

/-- Loop invariant for underflow: as long as the loop keeps succeeding from
indentation level `c`, at every node that decrements `curr_ident`, the
closers in the strict prefix are fewer than the openers plus `c`. -/
theorem runLoop_count_bound :
    ∀ (l : List Node) (c : Nat) (lk buf : List Char) (st' : FmtState),
      runLoop (c, c, lk, buf) l = some st' →
      ∀ i (hi : i < l.length), decrementsIdent (l.get ⟨i, hi⟩) = true →
        closerCount (l.take i) < openerCount (l.take i) + c := by
  intro l
  induction l with
  | nil => intro c lk buf st' _ i hi; simp at hi
  | cons x xs ih =>
    intro c lk buf st' h i hi hdec
    unfold runLoop at h
    cases hstep : stepFmt (c, c, lk, buf) x with
    | none => rw [hstep] at h; cases h
    | some st₁ =>
      rw [hstep] at h
      have hcases := stepFmt_success_cases hstep
      cases i with
      | zero =>
        have hdx : decrementsIdent x = true := hdec
        rcases hcases with ⟨hox, _⟩ | ⟨_, hc1, _⟩ | ⟨_, hc1, _⟩ | ⟨ho, hm, hc0, _⟩
        · have hex := (classifies_exclusive x).1 hox
          simp [decrementsIdent, hex.1, hex.2] at hdx
        · simp only [List.take_zero, closerCount, openerCount, List.countP_nil]
          omega
        · simp only [List.take_zero, closerCount, openerCount, List.countP_nil]
          omega
        · simp [decrementsIdent, hm, hc0] at hdx
      | succ j =>
        have hj : j < xs.length := Nat.lt_of_succ_lt_succ hi
        have hdx : decrementsIdent (xs.get ⟨j, hj⟩) = true := hdec
        simp only [List.take_succ_cons, closerCount, openerCount, List.countP_cons]
        rcases hcases with ⟨hox, lk', b', hst⟩ | ⟨hmx, hc1, lk', b', hst⟩ |
          ⟨hcx, hc1, lk', b', hst⟩ | ⟨ho, hm, hc0, lk', b', hst⟩
        · subst hst
          have hbound := ih (c + 1) lk' b' st' h j hj hdx
          have hex := (classifies_exclusive x).1 hox
          simp only [closerCount, openerCount] at hbound
          simp [hox, hex.2]
          omega
        · subst hst
          have hbound := ih c lk' b' st' h j hj hdx
          have hex := (classifies_exclusive x).2.1 hmx
          simp only [closerCount, openerCount] at hbound
          simp [hex.1, hex.2]
          omega
        · subst hst
          have hbound := ih (c - 1) lk' b' st' h j hj hdx
          have hex := (classifies_exclusive x).2.2 hcx
          simp only [closerCount, openerCount] at hbound
          simp [hcx, hex.1]
          omega
        · subst hst
          have hbound := ih c lk' b' st' h j hj hdx
          simp only [closerCount, openerCount] at hbound
          simp [ho, hm, hc0]
          omega

/-! ## Buffer-structure lemmas -/

theorem stepFmt_buf_suffix {st : FmtState} {node : Node} {st' : FmtState}
    (h : stepFmt st node = some st') :
    ∃ t pre, node.text = some t ∧ st'.2.2.2 = pre ++ t.data := by
  obtain ⟨curr, next, lk, buf⟩ := st
  simp only [stepFmt] at h
  cases hadj : adjustIdent (peek_jinja_stmt_keyword node) curr next with
  | none => rw [hadj] at h; cases h
  | some cn =>
    obtain ⟨c, n⟩ := cn
    rw [hadj] at h
    cases ht : node.text with
    | none => simp [ht] at h
    | some t =>
      simp only [ht] at h
      cases h
      exact ⟨t, _, rfl, rfl⟩

theorem stepFmt_buf_mono {st : FmtState} {node : Node} {st' : FmtState}
    (h : stepFmt st node = some st') :
    ∃ ext, st'.2.2.2 = st.2.2.2 ++ ext := by
  obtain ⟨curr, next, lk, buf⟩ := st
  simp only [stepFmt] at h
  cases hadj : adjustIdent (peek_jinja_stmt_keyword node) curr next with
  | none => rw [hadj] at h; cases h
  | some cn =>
    obtain ⟨c, n⟩ := cn
    rw [hadj] at h
    cases ht : node.text with
    | none => simp [ht] at h
    | some t =>
      simp only [ht] at h
      cases h
      by_cases hbr : node.kind ≠ "expression" ∨ lk ≠ strChars "expression"
      · exact ⟨'\n' :: List.replicate (c * INDENT_SIZE) ' ' ++ t.data, by simp [hbr]⟩
      · exact ⟨t.data, by simp [hbr]⟩

theorem runLoop_buf_mono :
    ∀ (l : List Node) (st st' : FmtState), runLoop st l = some st' →
      ∃ ext, st'.2.2.2 = st.2.2.2 ++ ext := by
  intro l
  induction l with
  | nil =>
    intro st st' h
    cases h
    exact ⟨[], by simp⟩
  | cons x xs ih =>
    intro st st' h
    unfold runLoop at h
    cases hstep : stepFmt st x with
    | none => rw [hstep] at h; cases h
    | some st₁ =>
      rw [hstep] at h
      obtain ⟨e₁, he₁⟩ := stepFmt_buf_mono hstep
      obtain ⟨e₂, he₂⟩ := ih st₁ st' h
      exact ⟨e₁ ++ e₂, by rw [he₂, he₁, List.append_assoc]⟩

/-- The very first loop iteration always emits at indentation level 0 and
the buffer starts with the inserted line break. -/
theorem stepFmt_first {node : Node} {st' : FmtState}
    (h : stepFmt (0, 0, [], []) node = some st') :
    ∃ cN lk' t, node.text = some t ∧ st' = (cN, cN, lk', '\n' :: t.data) := by
  cases hp : peek_jinja_stmt_keyword node with
  | none =>
    cases ht : node.text with
    | none => simp [stepFmt, adjustIdent, hp, ht] at h
    | some t =>
      rw [stepFmt_peek_none hp ht] at h
      cases h
      refine ⟨0, strChars node.kind, t, rfl, ?_⟩
      have hbr : ¬strChars "expression" = ([] : List Char) := by simp [strChars]
      simp [hbr, INDENT_SIZE]
  | some k =>
    by_cases hop : isOpenerKw k = true
    · cases ht : node.text with
      | none => simp [stepFmt, adjustIdent, hp, hop, ht] at h
      | some t =>
        rw [stepFmt_opener hp hop ht] at h
        cases h
        exact ⟨1, strChars "statement", t, rfl, by simp [INDENT_SIZE]⟩
    · simp only [Bool.not_eq_true] at hop
      by_cases hm : isMidKw k = true
      · simp [stepFmt, adjustIdent, hp, hop, hm, usizeDec] at h
      · simp only [Bool.not_eq_true] at hm
        by_cases hc : isCloserKw k = true
        · simp [stepFmt, adjustIdent, hp, hop, hm, hc, usizeDec] at h
        · simp only [Bool.not_eq_true] at hc
          simp [stepFmt, adjustIdent, hp, hop, hm, hc] at h

/-- The final buffer of a successful loop over a non-empty child list ends
with the last child's raw text. -/
theorem runLoop_last_suffix :
    ∀ (l : List Node) (st st' : FmtState) (nL : Node),
      runLoop st l = some st' → l.getLast? = some nL →
      ∃ tL pre, nL.text = some tL ∧ st'.2.2.2 = pre ++ tL.data := by
  intro l
  induction l with
  | nil => intro st st' nL _ hlast; cases hlast
  | cons x xs ih =>
    intro st st' nL h hlast
    unfold runLoop at h
    cases hstep : stepFmt st x with
    | none => rw [hstep] at h; cases h
    | some st₁ =>
      rw [hstep] at h
      cases xs with
      | nil =>
        cases h
        cases hlast
        exact stepFmt_buf_suffix hstep
      | cons y ys =>
        have hlast' : (y :: ys).getLast? = some nL := by
          rwa [List.getLast?_cons_cons] at hlast
        exact ih st₁ st' nL h hlast'

theorem getLast?_drop_one {α : Type} (l : List α) :
    (l.drop 1).getLast? = none ∨ (l.drop 1).getLast? = l.getLast? := by
  cases l with
  | nil => left; rfl
  | cons a l' =>
    cases l' with
    | nil => left; rfl
    | cons b l'' =>
      right
      simp [List.getLast?_cons_cons]

/-- Decomposition of a successful `format_jinja_node` call. -/
theorem format_jinja_node_eq {root : Node} {s : String}
    (h : format_jinja_node root = some s) :
    ∃ c n lk buf, runLoop (0, 0, [], []) root.children = some (c, n, lk, buf) ∧
      buf ≠ [] ∧ s.data = buf.drop 1 ++ ['\n'] := by
  unfold format_jinja_node at h
  cases hrun : runLoop (0, 0, [], []) root.children with
  | none => rw [hrun] at h; cases h
  | some st' =>
    obtain ⟨c, n, lk, buf⟩ := st'
    rw [hrun] at h
    by_cases hbuf : buf = []
    · simp [hbuf] at h
    · simp only [hbuf, if_neg, ite_false] at h
      cases h
      exact ⟨c, n, lk, buf, rfl, hbuf, rfl⟩

/-- Helper for C5: a run of expression-kind nodes following an emitted
expression node is concatenated into the buffer with no inserted breaks. -/
theorem runLoop_expr_run (c : Nat) :
    ∀ (es : List Node) (buf : List Char),
      (∀ n ∈ es, n.kind = "expression" ∧ n.text.isSome) →
      runLoop (c, c, strChars "expression", buf) es =
        some (c, c, strChars "expression", buf ++ concatTexts es) := by
  intro es
  induction es with
  | nil => intro buf _; simp [runLoop, concatTexts]
  | cons x xs ih =>
    intro buf hall
    have hx := hall x (List.mem_cons_self x xs)
    obtain ⟨t, ht⟩ := Option.isSome_iff_exists.mp hx.2
    have hp : peek_jinja_stmt_keyword x = none := by
      simp [peek_jinja_stmt_keyword, hx.1]
    have hstep := stepFmt_peek_none hp ht c c (strChars "expression") buf
    rw [if_neg (by simp [hx.1])] at hstep
    simp only [runLoop, hstep]
    rw [hx.1]
    rw [ih (buf ++ t.data) (fun n hn => hall n (List.mem_cons_of_mem x hn))]
    simp [concatTexts, ht, List.append_assoc]

/-! ## Claim theorems -/

/-- C1 (counterexample): in the source, `"elif" | "else"` decrements only
`curr_ident`; `next_ident` is untouched, and `curr_ident = next_ident` at
the end of the iteration restores the deeper level. On
`[if, else, text, endif]` the line after the `else` is emitted with 2
leading spaces (the pre-`else` level), not at the `else`'s reduced level 0:
the emitted indents are `[0, 0, 2, 0]`, not `[0, 0, 0, 0]` as the claim's
"every subsequent sibling is also emitted at that reduced level" predicts. -/
theorem c1_counterexample :
    (format_jinja_node (Node.mk "root"
        [stmtNode "if" "{% if x %}", stmtNode "else" "{% else %}", textNode "t",
         stmtNode "endif" "{% endif %}"] none)).map lineIndents = some [0, 0, 2, 0] ∧
    (format_jinja_node (Node.mk "root"
        [stmtNode "if" "{% if x %}", stmtNode "else" "{% else %}", textNode "t",
         stmtNode "endif" "{% endif %}"] none)).map lineIndents ≠ some [0, 0, 0, 0] := by
  decide

/-- C1 (amended): when a node is classified as a mid-block marker
(`elif`/`else`), `curr_ident` is decremented by 1 and the node is emitted
one level shallower, but `pending` (`next_ident`) is left unchanged, so
the loop continues — and every subsequent sibling is emitted — at the
original (un-reduced) level `c + 1`, not at the reduced level. -/
theorem c1_mid_marker_level (c : Nat) (lk buf : List Char) (node : Node) (rest : List Node)
    (k t : String) (hp : peek_jinja_stmt_keyword node = some k) (hm : isMidKw k = true)
    (ht : node.text = some t) :
    runLoop (c + 1, c + 1, lk, buf) (node :: rest) =
      runLoop (c + 1, c + 1, strChars "statement",
        buf ++ '\n' :: (List.replicate (c * INDENT_SIZE) ' ' ++ t.data)) rest := by
  have hstep := (stepFmt_mid hp hm ht c (c + 1) lk buf).1
  simp only [runLoop, hstep]

/-- C1 witness: the amended theorem at a concrete `else` node at level 1. -/
theorem c1_witness :
    runLoop (0 + 1, 0 + 1, [], []) [stmtNode "else" "{% else %}"] =
      runLoop (0 + 1, 0 + 1, strChars "statement",
        [] ++ '\n' :: (List.replicate (0 * INDENT_SIZE) ' ' ++ "{% else %}".data)) [] :=
  c1_mid_marker_level 0 [] [] (stmtNode "else" "{% else %}") [] "else" "{% else %}"
    rfl rfl rfl

/-- C2 (counterexample): a statement node with no second child, and one
whose second child's text fails to decode, both make
`peek_jinja_stmt_keyword` return the ordinary `none` — the same value as
for an unrecognized statement — because the `if let` chains fall through
to the final `None`; there is no panic/abort path in the classifier. -/
theorem c2_counterexample :
    peek_jinja_stmt_keyword (Node.mk "statement" [] (some "{%  %}")) = none ∧
    peek_jinja_stmt_keyword (Node.mk "statement"
      [Node.mk "\x7b%" [] (some "\x7b%"), Node.mk "keyword" [] none] (some "{% ? %}")) = none := by
  decide

/-- C2 (amended): for every statement node whose second child is absent or
whose second child's text cannot be decoded, classification returns no
keyword (it is treated like an unrecognized statement); it does not abort. -/
theorem c2_missing_child (node : Node) (hs : node.kind = "statement")
    (h : node.children.get? 1 = none ∨
      ∃ cn, node.children.get? 1 = some cn ∧ cn.text = none) :
    peek_jinja_stmt_keyword node = none := by
  unfold peek_jinja_stmt_keyword
  rcases h with h | ⟨cn, hcn, htx⟩
  · rw [List.get?_eq_getElem?] at h
    simp [hs, h]
  · rw [List.get?_eq_getElem?] at hcn
    simp [hs, hcn, htx]

/-- C2 witness: the amended theorem at a childless statement node. -/
theorem c2_witness :
    peek_jinja_stmt_keyword (Node.mk "statement" [] (some "{% %}")) = none :=
  c2_missing_child (Node.mk "statement" [] (some "{% %}")) rfl (Or.inl rfl)

/-- C3: the counters are `usize`; for every child sequence in which some
node is classified as a closer or mid-block marker while, counting that
node itself, the closer-side decrements seen so far are not exceeded by
the openers (closers in the strict prefix ≥ openers in the strict prefix),
the decrement of `curr_ident` underflows and the formatter hits the
arithmetic-underflow error branch (debug-build panic, modelled as `none`)
instead of producing an offset layout. -/
theorem c3_underflow (root : Node) (i : Nat) (hi : i < root.children.length)
    (hdec : decrementsIdent (root.children.get ⟨i, hi⟩) = true)
    (hcnt : openerCount (root.children.take i) ≤ closerCount (root.children.take i)) :
    format_jinja_node root = none := by
  cases hrun : runLoop (0, 0, [], []) root.children with
  | none => simp [format_jinja_node, hrun]
  | some st' =>
    have hb := runLoop_count_bound root.children 0 [] [] st' hrun i hi hdec
    omega

/-- C3 witness: a sequence beginning with `endif` aborts. -/
theorem c3_witness :
    format_jinja_node (Node.mk "root" [stmtNode "endif" "{% endif %}"] none) = none :=
  c3_underflow (Node.mk "root" [stmtNode "endif" "{% endif %}"] none) 0
    (by decide) (by decide) (by decide)

/-- C4: a node classified as an opener increments only `next_ident`
(pending) and is emitted with the unchanged `curr_ident * INDENT_SIZE`
leading spaces, the increment taking effect from the next sibling onward
(the loop continues at `c + 1`); a node classified as a closer decrements
both counters and is itself emitted at the reduced level `c` (the loop
continuing at `c`). -/
theorem c4_opener_closer (c : Nat) (lk buf : List Char) (node : Node) (rest : List Node)
    (k t : String) (hp : peek_jinja_stmt_keyword node = some k) (ht : node.text = some t) :
    (isOpenerKw k = true →
      runLoop (c, c, lk, buf) (node :: rest) =
        runLoop (c + 1, c + 1, strChars "statement",
          buf ++ '\n' :: (List.replicate (c * INDENT_SIZE) ' ' ++ t.data)) rest) ∧
    (isCloserKw k = true →
      runLoop (c + 1, c + 1, lk, buf) (node :: rest) =
        runLoop (c, c, strChars "statement",
          buf ++ '\n' :: (List.replicate (c * INDENT_SIZE) ' ' ++ t.data)) rest) := by
  constructor
  · intro hop
    have hstep := stepFmt_opener hp hop ht c c lk buf
    simp only [runLoop, hstep]
  · intro hc
    have hstep := (stepFmt_closer hp hc ht c c lk buf).1
    simp only [runLoop, hstep]

/-- C4 witness: the theorem at a concrete `for` opener at level 0 and a
concrete `endfor` closer at level 1. -/
theorem c4_witness :
    (runLoop (0, 0, [], []) [stmtNode "for" "{% for i in xs %}"] =
      runLoop (0 + 1, 0 + 1, strChars "statement",
        [] ++ '\n' :: (List.replicate (0 * INDENT_SIZE) ' ' ++ "{% for i in xs %}".data)) []) ∧
    (runLoop (0 + 1, 0 + 1, [], []) [stmtNode "endfor" "{% endfor %}"] =
      runLoop (0, 0, strChars "statement",
        [] ++ '\n' :: (List.replicate (0 * INDENT_SIZE) ' ' ++ "{% endfor %}".data)) []) :=
  ⟨(c4_opener_closer 0 [] [] (stmtNode "for" "{% for i in xs %}") [] "for"
      "{% for i in xs %}" rfl rfl).1 rfl,
   (c4_opener_closer 0 [] [] (stmtNode "endfor" "{% endfor %}") [] "endfor"
      "{% endfor %}" rfl rfl).2 rfl⟩

/-- C5: before each emitted node a line break plus
`curr_ident * INDENT_SIZE` spaces is inserted, except when both this
node's kind and the previous emitted node's kind are `"expression"`, in
which case nothing is inserted; consequently a run of consecutive
expression-kind siblings is concatenated on one line. -/
theorem c5_expression_joining (c : Nat) (lk buf : List Char) (node : Node)
    (rest es : List Node) (t : String) (ht : node.text = some t) :
    (node.kind = "expression" → lk = strChars "expression" →
      runLoop (c, c, lk, buf) (node :: rest) =
        runLoop (c, c, strChars "expression", buf ++ t.data) rest) ∧
    (peek_jinja_stmt_keyword node = none →
      (node.kind ≠ "expression" ∨ lk ≠ strChars "expression") →
      runLoop (c, c, lk, buf) (node :: rest) =
        runLoop (c, c, strChars node.kind,
          buf ++ '\n' :: (List.replicate (c * INDENT_SIZE) ' ' ++ t.data)) rest) ∧
    ((∀ n ∈ es, n.kind = "expression" ∧ n.text.isSome) →
      runLoop (c, c, strChars "expression", buf) es =
        some (c, c, strChars "expression", buf ++ concatTexts es)) := by
  refine ⟨?_, ?_, runLoop_expr_run c es buf⟩
  · intro hkind hlk
    have hp : peek_jinja_stmt_keyword node = none := by
      simp [peek_jinja_stmt_keyword, hkind]
    have hstep := stepFmt_peek_none hp ht c c lk buf
    rw [if_neg (by simp [hkind, hlk])] at hstep
    simp only [runLoop, hstep]
    rw [hkind]
  · intro hp hbr
    have hstep := stepFmt_peek_none hp ht c c lk buf
    rw [if_pos hbr] at hstep
    simp only [runLoop, hstep]
    simp [List.append_assoc]

/-- C5 witness: two joined expressions, then a text node that breaks. -/
theorem c5_witness :
    (runLoop (0, 0, strChars "expression", "{{a}}".data) [exprNode "{{b}}"] =
      runLoop (0, 0, strChars "expression", "{{a}}".data ++ "{{b}}".data) []) ∧
    (runLoop (0, 0, strChars "expression", "{{a}}".data) [textNode "t"] =
      runLoop (0, 0, strChars "text",
        "{{a}}".data ++ '\n' :: (List.replicate (0 * INDENT_SIZE) ' ' ++ "t".data)) []) :=
  ⟨(c5_expression_joining 0 (strChars "expression") "{{a}}".data (exprNode "{{b}}") [] []
      "{{b}}" rfl).1 rfl rfl,
   (c5_expression_joining 0 (strChars "expression") "{{a}}".data (textNode "t") [] []
      "t" rfl).2.1 rfl (Or.inl (by decide))⟩

/-- C6 (counterexample): the claim fails when a child's raw text itself
contains line breaks: for the single text child `"\n"` the output is
`"\n\n"`, which starts with a line break and ends with two. -/
theorem c6_counterexample :
    format_jinja_node (Node.mk "root" [textNode "\n"] none) = some "\n\n" ∧
    "\n\n".data.head? = some '\n' ∧
    "\n\n".data.dropLast.getLast? = some '\n' := by
  decide

/-- C6 (amended): the returned string is the accumulated buffer with its
first inserted line break stripped and one line break appended; hence for
a non-empty child sequence it does not start with a line break provided
the first child's raw text is non-empty and does not itself start with
one, and it ends with exactly one line break provided the last child's
raw text is non-empty and does not itself end with one. -/
theorem c6_strip_append (root : Node) (s : String) (n0 nL : Node) (t0 tL : String)
    (h : format_jinja_node root = some s)
    (h0 : root.children.head? = some n0) (ht0 : n0.text = some t0)
    (hL : root.children.getLast? = some nL) (htL : nL.text = some tL)
    (ht0nn : t0.data ≠ []) (ht0hd : t0.data.head? ≠ some '\n')
    (htLnn : tL.data ≠ []) (htLlast : tL.data.getLast? ≠ some '\n') :
    s.data.head? ≠ some '\n' ∧ s.data.getLast? = some '\n' ∧
      s.data.dropLast.getLast? ≠ some '\n' := by
  obtain ⟨c, n, lk, buf, hrun, hne, hs⟩ := format_jinja_node_eq h
  obtain ⟨tL', pre, htL', hbufL⟩ := runLoop_last_suffix root.children _ _ nL hrun hL
  rw [htL] at htL'
  cases htL'
  have hbufL' : buf = pre ++ tL.data := hbufL
  have hlast1 : s.data.getLast? = some '\n' := by
    rw [hs]
    exact List.getLast?_append_of_ne_nil _ (by simp)
  have hlast2 : s.data.dropLast.getLast? ≠ some '\n' := by
    rw [hs, List.dropLast_concat]
    have hbl : buf.getLast? = tL.data.getLast? := by
      rw [hbufL']
      exact List.getLast?_append_of_ne_nil _ htLnn
    rcases getLast?_drop_one buf with hd | hd
    · rw [hd]
      simp
    · rw [hd, hbl]
      exact htLlast
  refine ⟨?_, hlast1, hlast2⟩
  cases hch : root.children with
  | nil => rw [hch] at h0; cases h0
  | cons x rest =>
    rw [hch] at h0 hrun
    have hx : x = n0 := by
      simpa using h0
    subst hx
    unfold runLoop at hrun
    cases hstep : stepFmt (0, 0, [], []) x with
    | none => rw [hstep] at hrun; cases hrun
    | some st₁ =>
      rw [hstep] at hrun
      obtain ⟨cN, lk₁, t, ht', hst₁⟩ := stepFmt_first hstep
      rw [ht0] at ht'
      cases ht'
      subst hst₁
      obtain ⟨ext, hext⟩ := runLoop_buf_mono rest _ _ hrun
      have hbuf : buf = '\n' :: (t0.data ++ ext) := by
        simpa using hext
      rw [hs, hbuf]
      cases ht0d : t0.data with
      | nil => exact absurd ht0d ht0nn
      | cons a as =>
        rw [ht0d] at ht0hd
        simp only [List.head?_cons] at ht0hd
        simp [ht0hd]

/-- C6 witness: the amended theorem at the single text child `"hello"`. -/
theorem c6_witness :
    "hello\n".data.head? ≠ some '\n' ∧ "hello\n".data.getLast? = some '\n' ∧
      "hello\n".data.dropLast.getLast? ≠ some '\n' :=
  c6_strip_append (Node.mk "root" [textNode "hello"] none) "hello\n"
    (textNode "hello") (textNode "hello") "hello" "hello"
    (by decide) rfl (by decide) rfl (by decide)
    (by decide) (by decide) (by decide) (by decide)

/-- C7: when the root has zero children the loop leaves the buffer empty
and the slice `formatted[1..]` is out of bounds, so `format_jinja_node`
panics (modelled as `none`) instead of returning a string. -/
theorem c7_empty_children (root : Node) (h : root.children = []) :
    format_jinja_node root = none := by
  simp [format_jinja_node, h, runLoop]

/-- C7 witness: the theorem at a concrete childless root. -/
theorem c7_witness : format_jinja_node (Node.mk "root" [] none) = none :=
  c7_empty_children (Node.mk "root" [] none) rfl

/-- C8: classification returns no keyword unless the node's kind is
`"statement"`; for a statement node whose second child's text decodes to
`t`, it returns `some t` exactly when `t` is one of the twelve block
keywords, and nothing for any other statement text. -/
theorem c8_classifier_cases (node : Node) :
    (node.kind ≠ "statement" → peek_jinja_stmt_keyword node = none) ∧
    (∀ cn t, node.kind = "statement" → node.children.get? 1 = some cn →
      cn.text = some t →
      peek_jinja_stmt_keyword node = if t ∈ blockKeywords then some t else none) := by
  constructor
  · intro hne
    simp [peek_jinja_stmt_keyword, hne]
  · intro cn t hs hcn ht
    rw [List.get?_eq_getElem?] at hcn
    simp [peek_jinja_stmt_keyword, hs, hcn, ht, keywordMatch_eq_mem]

/-- C8 witness: the theorem at a text node, a `for` statement, and a
`set` statement. -/
theorem c8_witness :
    peek_jinja_stmt_keyword (textNode "hi") = none ∧
    peek_jinja_stmt_keyword (stmtNode "for" "{% for x in xs %}") = some "for" ∧
    peek_jinja_stmt_keyword (stmtNode "set" "{% set x = 1 %}") = none := by
  refine ⟨(c8_classifier_cases (textNode "hi")).1 (by decide), ?_, ?_⟩
  · have h := (c8_classifier_cases (stmtNode "for" "{% for x in xs %}")).2
      (Node.mk "keyword" [] (some "for")) "for" rfl rfl rfl
    simpa [blockKeywords] using h
  · have h := (c8_classifier_cases (stmtNode "set" "{% set x = 1 %}")).2
      (Node.mk "keyword" [] (some "set")) "set" rfl rfl rfl
    simpa [blockKeywords] using h

/-- C9: on the five siblings `for`, `if`, text, `endif`, `endfor` the
formatter emits five lines at indentation levels 0, 1, 2, 1, 0 with
`INDENT_SIZE = 2` spaces per level. -/
theorem c9_nested_blocks :
    format_jinja_node (Node.mk "root"
      [stmtNode "for" "{% for i in items %}", stmtNode "if" "{% if i %}", textNode "x",
       stmtNode "endif" "{% endif %}", stmtNode "endfor" "{% endfor %}"] none) =
      some "{% for i in items %}\n  {% if i %}\n    x\n  {% endif %}\n{% endfor %}\n" ∧
    (format_jinja_node (Node.mk "root"
      [stmtNode "for" "{% for i in items %}", stmtNode "if" "{% if i %}", textNode "x",
       stmtNode "endif" "{% endif %}", stmtNode "endfor" "{% endfor %}"] none)).map
        lineIndents =
      some ([0, 1, 2, 1, 0].map (fun lvl => lvl * INDENT_SIZE)) := by
  decide
